import Mathlib

/-!
Shallow embedding of the feature-synthesis pipeline in `create.py` of the
dereverberation-directional-feature repository.

Modelling conventions:
* Numpy arrays along the spherical-harmonic order axis are Lean `List`s;
  trailing broadcast axes (frequency, time) are scalarised, i.e. every
  definition describes the computation at one trailing index, which is
  exact because all the embedded operations act pointwise on those axes.
* Complex floating-point samples are modelled as exact complex rationals
  (`CC` below); float constants that are irrational (`np.sqrt(0.5)`) are
  passed as explicit parameters.
* The FFT/IFFT of the numpy library are external collaborators: they are
  passed as explicit function parameters, since every claim under study is
  independent of the transform values.
* Dtype-level behaviour (single/double precision, complex vs real) is
  modelled by a separate small dtype calculus `Dt`.
-/

/-- Complex numbers with exact rational components, the value model of one
complex floating-point sample. -/
structure CC where
  re : ℚ
  im : ℚ
deriving DecidableEq, Repr

namespace CC

instance : Zero CC := ⟨⟨0, 0⟩⟩

instance : One CC := ⟨⟨1, 0⟩⟩

instance : Add CC := ⟨fun a b => ⟨a.re + b.re, a.im + b.im⟩⟩

instance : Neg CC := ⟨fun a => ⟨-a.re, -a.im⟩⟩

instance : Sub CC := ⟨fun a b => ⟨a.re - b.re, a.im - b.im⟩⟩

instance : Mul CC := ⟨fun a b => ⟨a.re * b.re - a.im * b.im, a.re * b.im + a.im * b.re⟩⟩

/-- Complex conjugation (`.conj()` in numpy). -/
def conj (a : CC) : CC := ⟨a.re, -a.im⟩

/-- Scaling by a real scalar (window multiplication). -/
def smul (r : ℚ) (a : CC) : CC := ⟨r * a.re, r * a.im⟩

/-- Division by a (nonzero) real scalar (`/= artifact`). -/
def sdiv (a : CC) (r : ℚ) : CC := ⟨a.re / r, a.im / r⟩

/-- Division by `2j`: `w / 2j = -i * w / 2`. -/
def divTwoI (a : CC) : CC := ⟨a.im / 2, -a.re / 2⟩

end CC

/-- `int(np.ceil(np.sqrt(k)))`: the least `r` with `k ≤ r ^ 2`. -/
def ceilSqrt (k : ℕ) : ℕ :=
  if Nat.sqrt k * Nat.sqrt k = k then Nat.sqrt k else Nat.sqrt k + 1

/-- `seltriag(Ain, nrord, shft)` from `create.py` (lines 154–177): select the
spherical-harmonic coefficients of `Ain` with the order reduced by `nrord`
and the `(n, m)` indices shifted by `shft`.  The imperative loop writes the
output cell `idx` (incremented once per `(ii, jj)` iteration) from
`Ain[idx_from]` when the source index is valid and leaves the zero
initialisation otherwise, which is exactly the conditional below. -/
def seltriag (Ain : List CC) (nrord : ℤ) (shft : ℤ × ℤ) : List CC :=
  let N : ℤ := (ceilSqrt Ain.length : ℤ) - 1
  (List.range (N - nrord + 1).toNat).flatMap (fun ii =>
    (List.range (2 * ii + 1)).map (fun (j : ℕ) =>
      let jj : ℤ := (j : ℤ) - (ii : ℤ)
      let n : ℤ := shft.1 + ii
      let m : ℤ := shft.2 + jj
      let idx_from : ℤ := m + n * (n + 1)
      if -n ≤ m ∧ m ≤ n ∧ 0 ≤ n ∧ n ≤ N ∧ idx_from < Ain.length then
        Ain.getD idx_from.toNat 0
      else 0))

/-- The four recurrence terms built inside `calc_intensity` (`create.py`
lines 193–199), at one trailing (frequency, time) index.  The six weight
tensors broadcast over the trailing axes, so elementwise they are lists
along the order axis, combined with `zipWith`. -/
def intensityAugs (Asv Wpv_1_1_m1 Wpv_1_0_0 Wnv_1_0_0 Wnv_1_1_1 Vv_1_0_0 Vv_1_1_0 :
    List CC) : List CC × List CC × List CC × List CC :=
  let aug1 := (seltriag Asv 1 (0, 0)).map CC.conj
  let aug2 := List.zipWith (fun a b => a - b)
    (List.zipWith (fun a b => a * b) Wpv_1_1_m1 (seltriag Asv 1 (1, -1)))
    (List.zipWith (fun a b => a * b) Wnv_1_0_0 (seltriag Asv 1 (-1, -1)))
  let aug3 := List.zipWith (fun a b => a - b)
    (List.zipWith (fun a b => a * b) Wpv_1_0_0 (seltriag Asv 1 (-1, 1)))
    (List.zipWith (fun a b => a * b) Wnv_1_1_1 (seltriag Asv 1 (1, 1)))
  let aug4 := List.zipWith (fun a b => a + b)
    (List.zipWith (fun a b => a * b) Vv_1_0_0 (seltriag Asv 1 (-1, 0)))
    (List.zipWith (fun a b => a * b) Vv_1_1_0 (seltriag Asv 1 (1, 0)))
  (aug1, aug2, aug3, aug4)

/-- `calc_intensity` from `create.py` (lines 181–211) at one trailing
(frequency, time) index; the result is the `(x, y, z)` triple of the output
channels.  Mirrors the code exactly: the x sum is divided by 2 in place
(line 206 `out[..., 0] /= 2`) and then the whole output is divided by 2
again (line 209 `out /= 2`). -/
def calc_intensity (Asv Wpv_1_1_m1 Wpv_1_0_0 Wnv_1_0_0 Wnv_1_1_1 Vv_1_0_0 Vv_1_1_0 :
    List CC) : ℚ × ℚ × ℚ :=
  let augs := intensityAugs Asv Wpv_1_1_m1 Wpv_1_0_0 Wnv_1_0_0 Wnv_1_1_1 Vv_1_0_0 Vv_1_1_0
  let aug1 := augs.1
  let aug2 := augs.2.1
  let aug3 := augs.2.2.1
  let aug4 := augs.2.2.2
  let x0 := (List.zipWith (fun a b => (a * b).re) aug1
    (List.zipWith (fun a b => a + b) aug2 aug3)).sum
  let x1 := x0 / 2
  let y0 := (List.zipWith (fun a b => ((a * b).divTwoI).re) aug1
    (List.zipWith (fun a b => a - b) aug2 aug3)).sum
  let z0 := (List.zipWith (fun a b => (a * b).re) aug1 aug4).sum
  (x1 / 2, y0 / 2, z0 / 2)

/-- The claimed behaviour of `calc_intensity`: every channel is the
corresponding sum over the order axis normalized by the same factor 2.
Written from the spec sentence, to be compared with the code. -/
def calc_intensity_claimed (Asv Wpv_1_1_m1 Wpv_1_0_0 Wnv_1_0_0 Wnv_1_1_1 Vv_1_0_0
    Vv_1_1_0 : List CC) : ℚ × ℚ × ℚ :=
  let augs := intensityAugs Asv Wpv_1_1_m1 Wpv_1_0_0 Wnv_1_0_0 Wnv_1_1_1 Vv_1_0_0 Vv_1_1_0
  let aug1 := augs.1
  let aug2 := augs.2.1
  let aug3 := augs.2.2.1
  let aug4 := augs.2.2.2
  let x0 := (List.zipWith (fun a b => (a * b).re) aug1
    (List.zipWith (fun a b => a + b) aug2 aug3)).sum
  let y0 := (List.zipWith (fun a b => ((a * b).divTwoI).re) aug1
    (List.zipWith (fun a b => a - b) aug2 aug3)).sum
  let z0 := (List.zipWith (fun a b => (a * b).re) aug1 aug4).sum
  (x0 / 2, y0 / 2, z0 / 2)

/-- `calc_direction_vec` from `create.py` (lines 240–258) at one trailing
(frequency, time) index.  `anm[[3, 1, 2]]` is numpy fancy indexing, giving
the list `[anm[3], anm[1], anm[2]]`; the float constant `np.sqrt(0.5)` is
irrational and is passed as the explicit parameter `sqrt_half`. -/
def calc_direction_vec (sqrt_half : ℚ) (anm : List CC) : List ℚ :=
  let a0c := (anm.getD 0 0).conj
  (([3, 1, 2].map (fun i => (a0c * anm.getD i 0).re)).map (fun r => sqrt_half * r))

/-- `np.pad(data, (p, p), mode='reflect')` on one row, for the regime
`p ≤ len - 1` used by the code (`p = n_fft // 2`, applied to whole
waveforms): the left pad mirrors `data[p], …, data[1]` and the right pad
mirrors `data[len-2], …, data[len-1-p]`. -/
def reflectPad (data : List CC) (p : ℕ) : List CC :=
  ((List.range p).map (fun j => data.getD (p - j) 0)) ++ data ++
    ((List.range p).map (fun j => data.getD (data.length - 2 - j) 0))

/-- One frame of the zero-copy strided view (`xp.lib.stride_tricks.as_strided`):
frame `i` is `padded[i*l_hop : i*l_hop + l_frame]`. -/
def stridedFrame (padded : List CC) (l_frame l_hop i : ℕ) : List CC :=
  (List.range l_frame).map (fun t => padded.getD (i * l_hop + t) 0)

/-- `stft(data, _win)` from `create.py` (lines 89–105) on one input row,
frames-major (the code's output axis order is (freq, frame); here the outer
list is the frame axis, which is a transpose of the same data).  The numpy
FFT is an external collaborator passed as the parameter `fft`.
`hp.l_frame`, `hp.l_hop`, `hp.n_fft` come from the absent `hparams.py`;
they are parameters here.  Modelled from the spec: `hp.n_freq` is
`n_fft / 2 + 1`. -/
def stft (n_fft l_frame l_hop : ℕ) (fft : List CC → List CC)
    (data : List CC) (win : List ℚ) : List (List CC) :=
  let padded := reflectPad data (n_fft / 2)
  let n_frame := (padded.length - l_frame) / l_hop + 1
  (List.range n_frame).map (fun i =>
    (fft (List.zipWith CC.smul win (stridedFrame padded l_frame l_hop i))).take
      (n_fft / 2 + 1))

/-- The overlap-add accumulation buffer of `filter_overlap_add`
(`create.py` lines 119–134) on one input row: frames are windowed,
transformed, multiplied by the filter spectrum, inverse-transformed,
windowed again, and added at hop-length stride into a zero buffer of length
`len_istft`.  The imperative loop adds frame `i` on the index interval
`[i*l_hop, i*l_hop + l_frame)`, so cell `t` receives the sum below. -/
def floaAccum (n_fft l_frame l_hop : ℕ) (fft ifft : List CC → List CC)
    (wave : List CC) (filter_fft : List CC) (win : List ℚ) : List CC :=
  let len_original := wave.length
  let padded := reflectPad wave (n_fft / 2)
  let n_frame := len_original / l_hop + 1
  let len_istft := n_fft + l_hop * (n_frame - 1)
  let strided_filt := fun i =>
    List.zipWith CC.smul win
      (ifft (List.zipWith (fun a b => a * b)
        (fft (List.zipWith CC.smul win (stridedFrame padded l_frame l_hop i)))
        filter_fft))
  (List.range len_istft).map (fun t =>
    ((List.range n_frame).map (fun i =>
      if i * l_hop ≤ t ∧ t < i * l_hop + l_frame then
        (strided_filt i).getD (t - i * l_hop) 0
      else 0)).sum)

/-- Artifact compensation of `filter_overlap_add` (`create.py` lines
136–146): the accumulated buffer is divided by the sum-of-squared-windows
`artifact` exactly at the cells where `artifact > tiny`
(`librosa.filters.window_sumsquare` and `librosa.util.tiny` are external
collaborators, passed as the parameters `artifact` and `tiny`). -/
def floaNormalize (acc : List CC) (artifact : List ℚ) (tiny : ℚ) : List CC :=
  (List.range acc.length).map (fun t =>
    if t < artifact.length ∧ tiny < artifact.getD t 0 then
      (acc.getD t 0).sdiv (artifact.getD t 0)
    else acc.getD t 0)

/-- `filter_overlap_add(wave, filter_fft, _win)` from `create.py` (lines
108–150) on one input row, value level: accumulate, compensate the window
artifact, then trim the `n_fft / 2` left edge padding and cut back to the
original length (lines 147–148).  The real-vs-complex return dtype (line
150) is modelled separately at the dtype level by `floaDtype`. -/
def filter_overlap_add (n_fft l_frame l_hop : ℕ) (fft ifft : List CC → List CC)
    (artifact : List ℚ) (tiny : ℚ)
    (wave : List CC) (filter_fft : List CC) (win : List ℚ) : List CC :=
  ((floaNormalize
      (floaAccum n_fft l_frame l_hop fft ifft wave filter_fft win)
      artifact tiny).drop
    (n_fft / 2)).take wave.length

/-- The numpy dtypes occurring in the pipeline's arrays. `other` stands for
any dtype outside the four floating ones (the unsupported case of
`as_single_prec`). -/
inductive Dt where
  | f32 | f64 | c64 | c128 | other
deriving DecidableEq, Repr

/-- `np.iscomplexobj` at the dtype level. -/
def Dt.isComplex : Dt → Bool
  | .c64 => true
  | .c128 => true
  | _ => false

/-- The dtype of `.real` of an array: complex single → float single,
complex double → float double, real dtypes unchanged. -/
def Dt.realPart : Dt → Dt
  | .c64 => .f32
  | .c128 => .f64
  | d => d

/-- Dtype-level model of `filter_overlap_add` (`create.py` lines 130,
146–150): the output buffer `filtered` is created with
`dtype=xp.complex64` (line 130); the in-place `+=` and `/=` keep the
buffer's dtype under numpy same-kind casting; line 150 returns `filtered`
itself for a complex input `wave` and `filtered.real` for a real one. -/
def floaDtype (wave_dt : Dt) : Dt :=
  let filtered_dt := Dt.c64
  if wave_dt.isComplex then filtered_dt else filtered_dt.realPart

/-- The `SFTData` dataclass of `create.py` (lines 40–62) at the dtype
level: each field is `None` or an array with a dtype (the values are only
copied or `astype`-converted, so only dtypes matter for the claims).  Field
order matches the dataclass. -/
structure SFTData where
  Yenc : Option Dt := none
  bnkr_inv : Option Dt := none
  Wpv_1_1_m1 : Option Dt := none
  Wpv_1_0_0 : Option Dt := none
  Wnv_1_0_0 : Option Dt := none
  Wnv_1_1_1 : Option Dt := none
  Vv_1_0_0 : Option Dt := none
  Vv_1_1_0 : Option Dt := none
  T_real : Option Dt := none
deriving DecidableEq, Repr

/-- The per-field body of the `as_single_prec` loop (`create.py` lines
71–84): `None` fields are skipped (hence stay `None` in the rebuilt
dataclass), float64 → float32, complex128 → complex64, float32 and
complex64 pass unchanged, and any other dtype raises
`NotImplementedError`. -/
def singlePrecField : Option Dt → Except Unit (Option Dt)
  | none => Except.ok none
  | some d =>
    match d with
    | .f64 => Except.ok (some .f32)
    | .c128 => Except.ok (some .c64)
    | .f32 => Except.ok (some .f32)
    | .c64 => Except.ok (some .c64)
    | .other => Except.error ()

/-- `SFTData.as_single_prec` from `create.py` (lines 64–86): build a new
`SFTData` whose populated fields are converted by the loop body; the
`raise NotImplementedError` propagates as `Except.error`. -/
def SFTData.as_single_prec (s : SFTData) : Except Unit SFTData := do
  let yenc ← singlePrecField s.Yenc
  let bnkr ← singlePrecField s.bnkr_inv
  let w1 ← singlePrecField s.Wpv_1_1_m1
  let w2 ← singlePrecField s.Wpv_1_0_0
  let w3 ← singlePrecField s.Wnv_1_0_0
  let w4 ← singlePrecField s.Wnv_1_1_1
  let v1 ← singlePrecField s.Vv_1_0_0
  let v2 ← singlePrecField s.Vv_1_1_0
  let t ← singlePrecField s.T_real
  pure { Yenc := yenc, bnkr_inv := bnkr, Wpv_1_1_m1 := w1, Wpv_1_0_0 := w2,
         Wnv_1_0_0 := w3, Wnv_1_1_1 := w4, Vv_1_0_0 := v1, Vv_1_1_0 := v2,
         T_real := t }

/-- The list of an `SFTData`'s fields, for quantifying over them. -/
def SFTData.fields (s : SFTData) : List (Option Dt) :=
  [s.Yenc, s.bnkr_inv, s.Wpv_1_1_m1, s.Wpv_1_0_0, s.Wnv_1_0_0, s.Wnv_1_1_1,
   s.Vv_1_0_0, s.Vv_1_1_0, s.T_real]

/-- The spec's description of the per-field precision reduction (double
becomes single, single passes unchanged, unpopulated stays unpopulated),
written from the spec's words for comparison with `as_single_prec`; the
unsupported dtype is mapped arbitrarily since the spec has it raise. -/
def singleSpecMap : Option Dt → Option Dt
  | none => none
  | some Dt.f64 => some Dt.f32
  | some Dt.c128 => some Dt.c64
  | some Dt.f32 => some Dt.f32
  | some Dt.c64 => some Dt.c64
  | some Dt.other => none

/-- The unit of work `(speech_index, room_id, location_index)`; room ids
are abstracted to naturals. -/
structure FeatureTuple where
  i_speech : ℕ
  room : ℕ
  i_loc : ℕ
deriving DecidableEq, Repr

/-- Modelled from the spec: `hp.form_feature` lives in the absent
`hparams.py`; per the spec it is a fixed filename template embedding
`(idx, speech_index, room_id, location_index)`, and
`list_fname_to_feature` parses the speech and location fields back out of
a name.  A feature filename is therefore modelled as the four-field record
below, with formatting and parsing as field access. -/
structure FName where
  idx : ℕ
  i_speech : ℕ
  room : ℕ
  i_loc : ℕ
deriving DecidableEq, Repr

/-- `list_feature_to_fname` from `create.py` (lines 430–433): format each
tuple together with its position index. -/
def list_feature_to_fname (feats : List FeatureTuple) : List FName :=
  feats.enum.map (fun p => ⟨p.1, p.2.i_speech, p.2.room, p.2.i_loc⟩)

/-- `list_fname_to_feature` from `create.py` (lines 436–443): keep the
names whose parsed location index is `< n_loc` and rebuild the tuples,
substituting the current run's `hp.room_create` for the room field. -/
def list_fname_to_feature (room_create n_loc : ℕ) (fnames : List FName) :
    List FeatureTuple :=
  (fnames.filter (fun f => f.i_loc < n_loc)).map
    (fun f => ⟨f.i_speech, room_create, f.i_loc⟩)

/-- The fresh feature list (`create.py` lines 551–552):
`product(range(n_speech), range(n_loc))` paired with the run's room. -/
def freshFeatureList (n_speech n_loc room_create : ℕ) : List FeatureTuple :=
  (List.range n_speech).flatMap (fun s =>
    (List.range n_loc).map (fun l => ⟨s, room_create, l⟩))

/-- The subsampling of the fresh list (`create.py` lines 558–560) by the
injected index choice (`np.random.choice(len, n_feature, replace=False)`,
an external randomness source whose outputs are indices below the list
length). -/
def sampleFeatures (full : List FeatureTuple) (idx_choice : List ℕ) :
    List FeatureTuple :=
  idx_choice.map (fun i => full.getD i ⟨0, 0, 0⟩)

/-- Filesystem effects of the `__main__` block that touch output storage,
plus the start of the worker pools. -/
inductive Effect where
  | mkdirOutput
  | writeMetadata
  | startWorkers
deriving DecidableEq, Repr

/-- The fatal startup errors of the `__main__` block. -/
inductive MainErr where
  | unsupportedDtype
  | refMetaMissing
  | fromIdxTooLarge
deriving DecidableEq, Repr

/-- Result of the `__main__` block when no error is raised. -/
inductive MainOutcome where
  | exitNoWork
  | proceed (ask : Bool) (idx_start : ℤ) (n_feature : ℕ)
deriving DecidableEq, Repr

/-- The resume scan (`create.py` lines 566–571): `idx_exist` is one less
than the first index whose feature file is missing, or `-2` when every
file exists (the loop breaks at the first miss). -/
def idx_exist_scan (featExists : ℕ → Bool) (n_feature : ℕ) : ℤ :=
  match (List.range n_feature).find? (fun i => ! featExists i) with
  | some i => (i : ℤ) - 1
  | none => -2

/-- `range(idx_start, n_feature)` (`create.py` line 263), the only indices
the `process` routine iterates over. -/
def processIndices (idx_start : ℤ) (n_feature : ℕ) : List ℤ :=
  (List.range ((n_feature - idx_start).toNat)).map (fun (t : ℕ) => idx_start + (t : ℤ))

/-- External inputs of the `__main__` block (`create.py` lines 446–592):
the pre-existing filesystem state, the reference metadata content, the
configuration from the absent `hparams.py`, and the injected randomness. -/
structure MainEnv where
  out_dir_exists : Bool
  sft_dtypes : SFTData
  s_path_metadata : Bool
  ref_meta_exists : Bool
  f_metadata_exists : Bool
  ref_fnames : List FName
  n_speech_ref : ℕ
  n_speech_glob : ℕ
  n_loc : ℕ
  room_create : ℕ
  n_feature_request : ℕ
  idx_choice : List ℕ
  from_idx : ℤ
  featExists : ℕ → Bool

/-- The feature list the run will process (`create.py` lines 537–560): the
reference branch (an explicit `hp.s_path_metadata`, or a `metadata.mat`
already present in the output directory) reconstructs it from the
reference's filename list; the fresh branch samples the speech × location
product. -/
def mainFeatureList (env : MainEnv) : List FeatureTuple :=
  if env.s_path_metadata || env.f_metadata_exists then
    list_fname_to_feature env.room_create env.n_loc env.ref_fnames
  else
    sampleFeatures
      (freshFeatureList env.n_speech_glob env.n_loc env.room_create)
      env.idx_choice

/-- `n_feature` (`create.py` lines 547, 554–557): the reconstructed list's
length in the reference branch, the configured count in the fresh one. -/
def mainNFeature (env : MainEnv) : ℕ :=
  if env.s_path_metadata || env.f_metadata_exists then
    (list_fname_to_feature env.room_create env.n_loc env.ref_fnames).length
  else env.n_feature_request

/-- The `__main__` block of `create.py` (lines 446–592) as a sequence of
output-storage effects plus an error or an outcome, in source order:
`os.makedirs(path_result, exist_ok=True)` (line 474, unconditional,
creates the output directory when absent), `sftdata.as_single_prec()`
(line 514, raises on an unsupported dtype), the reference-metadata
existence check (lines 528–531), the `n_feature < args.from_idx` check
(lines 562–563), the resume scan, and the early-exit/metadata-write or
worker start (`process` begins by writing metadata via
`print_save_info`). -/
def mainRun (env : MainEnv) : List Effect × Except MainErr MainOutcome :=
  let eff0 : List Effect := if env.out_dir_exists then [] else [Effect.mkdirOutput]
  match env.sft_dtypes.as_single_prec with
  | Except.error _ => (eff0, Except.error MainErr.unsupportedDtype)
  | Except.ok _ =>
    if env.s_path_metadata ∧ ¬ env.ref_meta_exists then
      (eff0, Except.error MainErr.refMetaMissing)
    else
      let n_feature := mainNFeature env
      if (n_feature : ℤ) < env.from_idx then
        (eff0, Except.error MainErr.fromIdxTooLarge)
      else
        let idx_exist := idx_exist_scan env.featExists n_feature
        if env.from_idx = -1 then
          if idx_exist = -2 then
            (eff0 ++ [Effect.writeMetadata], Except.ok MainOutcome.exitNoWork)
          else
            (eff0 ++ [Effect.writeMetadata, Effect.startWorkers],
             Except.ok (MainOutcome.proceed false (idx_exist + 1) n_feature))
        else
          (eff0 ++ [Effect.writeMetadata, Effect.startWorkers],
           Except.ok (MainOutcome.proceed true env.from_idx n_feature))

/-- The triangular block structure common to `seltriag`'s loops: block `ii`
has the `2*ii + 1` cells of order `ii`. -/
def triagBlocks (c : ℕ) (g : ℕ → ℕ → CC) : List CC :=
  (List.range c).flatMap (fun ii => (List.range (2 * ii + 1)).map (g ii))

/-- The per-cell body of `seltriag`'s loop. -/
def seltriagCell (Ain : List CC) (N : ℤ) (shft : ℤ × ℤ) (ii j : ℕ) : CC :=
  let jj : ℤ := (j : ℤ) - (ii : ℤ)
  let n : ℤ := shft.1 + ii
  let m : ℤ := shft.2 + jj
  let idx_from : ℤ := m + n * (n + 1)
  if -n ≤ m ∧ m ≤ n ∧ 0 ≤ n ∧ n ≤ N ∧ idx_from < Ain.length then
    Ain.getD idx_from.toNat 0
  else 0

/- ------------------------------------------------------------------ -/
/- Theorems.                                                           -/
/- ------------------------------------------------------------------ -/

theorem CC.zero_def : (0 : CC) = ⟨0, 0⟩ := rfl

theorem CC.add_def (a b : CC) : a + b = ⟨a.re + b.re, a.im + b.im⟩ := rfl

theorem CC.sub_def (a b : CC) : a - b = ⟨a.re - b.re, a.im - b.im⟩ := rfl

theorem CC.mul_def (a b : CC) :
    a * b = ⟨a.re * b.re - a.im * b.im, a.re * b.im + a.im * b.re⟩ := rfl

theorem CC.zero_re : (0 : CC).re = 0 := rfl

theorem CC.zero_im : (0 : CC).im = 0 := rfl

theorem CC.add_re (a b : CC) : (a + b).re = a.re + b.re := rfl

theorem CC.add_im (a b : CC) : (a + b).im = a.im + b.im := rfl

theorem CC.sub_re (a b : CC) : (a - b).re = a.re - b.re := rfl

theorem CC.sub_im (a b : CC) : (a - b).im = a.im - b.im := rfl

theorem ceilSqrt_sq (r : ℕ) : ceilSqrt (r ^ 2) = r := by
  unfold ceilSqrt
  have h : Nat.sqrt (r ^ 2) = r := Nat.sqrt_eq' r
  rw [h, if_pos (by rw [← pow_two])]

theorem seltriag_eq_triagBlocks (Ain : List CC) (nrord : ℤ) (shft : ℤ × ℤ) :
    seltriag Ain nrord shft =
      triagBlocks (((ceilSqrt Ain.length : ℤ) - 1) - nrord + 1).toNat
        (seltriagCell Ain ((ceilSqrt Ain.length : ℤ) - 1) shft) := by
  unfold seltriag triagBlocks seltriagCell
  rfl

theorem triagBlocks_succ (c : ℕ) (g : ℕ → ℕ → CC) :
    triagBlocks (c + 1) g =
      triagBlocks c g ++ (List.range (2 * c + 1)).map (g c) := by
  unfold triagBlocks
  rw [List.range_succ, List.flatMap_append]
  simp

theorem triagBlocks_length (c : ℕ) (g : ℕ → ℕ → CC) :
    (triagBlocks c g).length = c ^ 2 := by
  induction c with
  | zero => simp [triagBlocks]
  | succ n ih =>
    rw [triagBlocks_succ, List.length_append, ih]
    simp
    ring

theorem triagBlocks_getD (c : ℕ) (g : ℕ → ℕ → CC) (ii j : ℕ)
    (hii : ii < c) (hj : j < 2 * ii + 1) :
    (triagBlocks c g).getD (ii * ii + j) 0 = g ii j := by
  induction c with
  | zero => omega
  | succ n ih =>
    rw [triagBlocks_succ]
    rcases Nat.lt_or_ge ii n with h | h
    · rw [List.getD_append]
      · exact ih h
      · calc ii * ii + j < ii * ii + (2 * ii + 1) := by omega
          _ = (ii + 1) ^ 2 := by ring
          _ ≤ n ^ 2 := Nat.pow_le_pow_left (by omega) 2
          _ = (triagBlocks n g).length := (triagBlocks_length n g).symm
    · have hii' : ii = n := by omega
      subst hii'
      rw [List.getD_append_right _ _ _ _ (by rw [triagBlocks_length, pow_two]; omega)]
      rw [triagBlocks_length]
      have hj' : ii * ii + j - ii ^ 2 = j := by rw [pow_two]; omega
      rw [hj']
      simp [List.getD_eq_getElem?_getD, List.getElem?_map, List.getElem?_range hj]

theorem seltriag_id (Ain : List CC) (Nv : ℕ)
    (hlen : Ain.length = (Nv + 1) ^ 2) :
    seltriag Ain 0 (0, 0) = Ain := by
  rw [seltriag_eq_triagBlocks]
  have hcs : ceilSqrt Ain.length = Nv + 1 := by rw [hlen, ceilSqrt_sq]
  rw [hcs]
  have hcnt : (((Nv + 1 : ℕ) : ℤ) - 1 - 0 + 1).toNat = Nv + 1 := by
    push_cast
    omega
  rw [hcnt]
  have hlen2 : (triagBlocks (Nv + 1)
      (seltriagCell Ain (((Nv + 1 : ℕ) : ℤ) - 1) (0, 0))).length = Ain.length := by
    rw [triagBlocks_length, hlen]
  apply List.ext_getElem hlen2
  intro k h1 h2
  have hk : k < (Nv + 1) ^ 2 := by rw [← hlen]; exact h2
  set ii := Nat.sqrt k with hii_def
  have hlow : ii * ii ≤ k := Nat.sqrt_le k
  have hhigh : k < (ii + 1) * (ii + 1) := Nat.lt_succ_sqrt k
  have hiiN : ii < Nv + 1 := by
    by_contra hcon
    push_neg at hcon
    have : (Nv + 1) * (Nv + 1) ≤ ii * ii := Nat.mul_le_mul hcon hcon
    have : (Nv + 1) ^ 2 ≤ k := by nlinarith
    omega
  set j := k - ii * ii with hj_def
  have hexp : (ii + 1) * (ii + 1) = ii * ii + 2 * ii + 1 := by ring
  have hkdecomp : k = ii * ii + j := by omega
  have hjlt : j < 2 * ii + 1 := by omega
  have hcell : (triagBlocks (Nv + 1)
      (seltriagCell Ain (((Nv + 1 : ℕ) : ℤ) - 1) (0, 0))).getD k 0 =
      seltriagCell Ain (((Nv + 1 : ℕ) : ℤ) - 1) (0, 0) ii j := by
    rw [hkdecomp]
    exact triagBlocks_getD (Nv + 1) _ ii j hiiN hjlt
  rw [← List.getD_eq_getElem _ 0 h1, ← List.getD_eq_getElem _ 0 h2, hcell]
  unfold seltriagCell
  dsimp only
  have hidx : (0 : ℤ) + ((j : ℤ) - (ii : ℤ)) + ((0 : ℤ) + (ii : ℤ)) *
      ((0 : ℤ) + (ii : ℤ) + 1) = (k : ℤ) := by
    push_cast [hkdecomp]
    ring
  rw [if_pos]
  · congr 1
    rw [hidx]
    exact Int.toNat_natCast k
  · refine ⟨by omega, by omega, by omega, by push_cast; omega, ?_⟩
    rw [hidx, hlen]
    exact_mod_cast hk

/-- C2: `seltriag(Ain, 0, (0, 0))` on an input of first-dimension length
`(N+1)^2` is the identity; and in general the output cell of order `ii`
and degree `jj = j - ii` is zero-filled exactly when its source index
`(n, m) = (shft[0]+ii, shft[1]+jj)` falls outside the valid triangle
(`-n ≤ m ≤ n`, `0 ≤ n ≤ N`, `idx_from < len`), and is copied from
`Ain[idx_from]` otherwise — no error is raised in either case. -/
theorem claim_C2 :
    (∀ (Ain : List CC) (Nv : ℕ), Ain.length = (Nv + 1) ^ 2 →
        seltriag Ain 0 (0, 0) = Ain) ∧
    (∀ (Ain : List CC) (nrord : ℤ) (shft : ℤ × ℤ) (ii j : ℕ),
        ii < (((ceilSqrt Ain.length : ℤ) - 1) - nrord + 1).toNat →
        j < 2 * ii + 1 →
        (¬ (-(shft.1 + (ii : ℤ)) ≤ shft.2 + ((j : ℤ) - (ii : ℤ)) ∧
              shft.2 + ((j : ℤ) - (ii : ℤ)) ≤ shft.1 + (ii : ℤ) ∧
              0 ≤ shft.1 + (ii : ℤ) ∧
              shft.1 + (ii : ℤ) ≤ (ceilSqrt Ain.length : ℤ) - 1 ∧
              shft.2 + ((j : ℤ) - (ii : ℤ)) +
                (shft.1 + (ii : ℤ)) * (shft.1 + (ii : ℤ) + 1) < Ain.length) →
            (seltriag Ain nrord shft).getD (ii * ii + j) 0 = 0) ∧
        ((-(shft.1 + (ii : ℤ)) ≤ shft.2 + ((j : ℤ) - (ii : ℤ)) ∧
              shft.2 + ((j : ℤ) - (ii : ℤ)) ≤ shft.1 + (ii : ℤ) ∧
              0 ≤ shft.1 + (ii : ℤ) ∧
              shft.1 + (ii : ℤ) ≤ (ceilSqrt Ain.length : ℤ) - 1 ∧
              shft.2 + ((j : ℤ) - (ii : ℤ)) +
                (shft.1 + (ii : ℤ)) * (shft.1 + (ii : ℤ) + 1) < Ain.length) →
            (seltriag Ain nrord shft).getD (ii * ii + j) 0 =
              Ain.getD (shft.2 + ((j : ℤ) - (ii : ℤ)) +
                (shft.1 + (ii : ℤ)) * (shft.1 + (ii : ℤ) + 1)).toNat 0)) := by
  constructor
  · exact seltriag_id
  · intro Ain nrord shft ii j hii hj
    have hbase : (seltriag Ain nrord shft).getD (ii * ii + j) 0 =
        seltriagCell Ain ((ceilSqrt Ain.length : ℤ) - 1) shft ii j := by
      rw [seltriag_eq_triagBlocks]
      exact triagBlocks_getD _ _ ii j hii hj
    unfold seltriagCell at hbase
    dsimp only at hbase
    constructor
    · intro hcond
      rw [hbase, if_neg hcond]
    · intro hcond
      rw [hbase, if_pos hcond]

/-- Witness for C2 at a concrete order-1 input: the identity on a length-4
coefficient list, and the zero-fill of `seltriag(·, 1, (2, 0))` at the cell
whose source order exceeds the top order. -/
theorem claim_C2_witness :
    seltriag [(⟨1, 2⟩ : CC), ⟨3, 4⟩, ⟨5, 6⟩, ⟨7, 8⟩] 0 (0, 0) =
      [(⟨1, 2⟩ : CC), ⟨3, 4⟩, ⟨5, 6⟩, ⟨7, 8⟩] ∧
    (seltriag [(⟨1, 2⟩ : CC), ⟨3, 4⟩, ⟨5, 6⟩, ⟨7, 8⟩] 1 (2, 0)).getD 0 0 = 0 := by
  have hcs : ceilSqrt ([(⟨1, 2⟩ : CC), ⟨3, 4⟩, ⟨5, 6⟩, ⟨7, 8⟩].length) = 2 :=
    ceilSqrt_sq 2
  constructor
  · exact claim_C2.1 [⟨1, 2⟩, ⟨3, 4⟩, ⟨5, 6⟩, ⟨7, 8⟩] 1 (by decide)
  · exact (claim_C2.2 [⟨1, 2⟩, ⟨3, 4⟩, ⟨5, 6⟩, ⟨7, 8⟩] 1 (2, 0) 0 0
      (by rw [hcs]; decide) (by decide)).1 (by rw [hcs]; decide)

theorem seltriag_order1 (A : List CC) (h : A.length = 4) (sh : ℤ × ℤ) :
    seltriag A 1 sh = [seltriagCell A 1 sh 0 0] := by
  rw [seltriag_eq_triagBlocks, h]
  have hcs : ceilSqrt 4 = 2 := ceilSqrt_sq 2
  rw [hcs]
  show triagBlocks 1 _ = _
  rfl

/-- C1 counterexample: at the order-1 input `Asv = [1, 1, 1, 1]` with
`Wpv_1_1_m1 = [1]` and the other five weights `[0]`, the x channel of
`calc_intensity` is `1/4` while the claimed common normalization by 2
gives `1/2`, so the claim fails as stated. -/
theorem claim_C1_counterexample :
    calc_intensity [(⟨1, 0⟩ : CC), ⟨1, 0⟩, ⟨1, 0⟩, ⟨1, 0⟩]
        [⟨1, 0⟩] [⟨0, 0⟩] [⟨0, 0⟩] [⟨0, 0⟩] [⟨0, 0⟩] [⟨0, 0⟩] ≠
      calc_intensity_claimed [(⟨1, 0⟩ : CC), ⟨1, 0⟩, ⟨1, 0⟩, ⟨1, 0⟩]
        [⟨1, 0⟩] [⟨0, 0⟩] [⟨0, 0⟩] [⟨0, 0⟩] [⟨0, 0⟩] [⟨0, 0⟩] := by
  have h := seltriag_order1 ([⟨1, 0⟩, ⟨1, 0⟩, ⟨1, 0⟩, ⟨1, 0⟩] : List CC) rfl
  simp only [calc_intensity, calc_intensity_claimed, intensityAugs, h]
  norm_num [seltriagCell, CC.conj, CC.mul_def, CC.add_def, CC.sub_def,
    CC.zero_def, CC.divTwoI, Prod.ext_iff, List.getD]

/-- C1 amended: the y and z channels of `calc_intensity` are the claimed
sums normalized by 2, but the x channel is additionally halved (line 206
`out[..., 0] /= 2` precedes the global line 209 `out /= 2`), so x is the
claimed value divided by 2 again, i.e. the x sum normalized by 4. -/
theorem claim_C1 (Asv W1 W2 W3 W4 V1 V2 : List CC) :
    (calc_intensity Asv W1 W2 W3 W4 V1 V2).1 =
      (calc_intensity_claimed Asv W1 W2 W3 W4 V1 V2).1 / 2 ∧
    (calc_intensity Asv W1 W2 W3 W4 V1 V2).2.1 =
      (calc_intensity_claimed Asv W1 W2 W3 W4 V1 V2).2.1 ∧
    (calc_intensity Asv W1 W2 W3 W4 V1 V2).2.2 =
      (calc_intensity_claimed Asv W1 W2 W3 W4 V1 V2).2.2 := by
  unfold calc_intensity calc_intensity_claimed
  exact ⟨rfl, rfl, rfl⟩

/-- C8: each channel of `calc_direction_vec` is `sqrt(0.5)` times the real
part of the conjugated zeroth-order coefficient times one first-order
coefficient, with the assignment x ↦ `anm[3]`, y ↦ `anm[1]`, z ↦ `anm[2]`
(each first-order coefficient used for exactly one channel). -/
theorem claim_C8 (sqrt_half : ℚ) (anm : List CC) (h : 4 ≤ anm.length) :
    calc_direction_vec sqrt_half anm =
      [sqrt_half * ((anm.getD 0 0).conj * anm.getD 3 0).re,
       sqrt_half * ((anm.getD 0 0).conj * anm.getD 1 0).re,
       sqrt_half * ((anm.getD 0 0).conj * anm.getD 2 0).re] := by
  unfold calc_direction_vec
  rfl

/-- Witness for C8 at a concrete order-1 spectrum. -/
theorem claim_C8_witness :
    calc_direction_vec 1 [(⟨1, 1⟩ : CC), ⟨2, 0⟩, ⟨0, 3⟩, ⟨4, 5⟩] =
      [1 * (((⟨1, 1⟩ : CC)).conj * ⟨4, 5⟩).re,
       1 * (((⟨1, 1⟩ : CC)).conj * ⟨2, 0⟩).re,
       1 * (((⟨1, 1⟩ : CC)).conj * ⟨0, 3⟩).re] :=
  claim_C8 1 [⟨1, 1⟩, ⟨2, 0⟩, ⟨0, 3⟩, ⟨4, 5⟩] (by decide)

theorem getD_range_map {α : Type} (f : ℕ → α) (n i : ℕ) (d : α) (h : i < n) :
    ((List.range n).map f).getD i d = f i := by
  rw [List.getD_eq_getElem _ _ (by simpa using h)]
  simp

theorem reflectPad_length (data : List CC) (p : ℕ) :
    (reflectPad data p).length = data.length + 2 * p := by
  simp [reflectPad]
  omega

/-- C5: `stft` reflect-pads the input by `n_fft/2` on each end, frames the
padded signal with stride `l_hop` into `(padded_length - l_frame)/l_hop + 1`
frames, multiplies each frame by the window, applies the FFT to the frame,
and keeps only the first `n_fft/2 + 1` frequency bins; it is a pure
function of its arguments. -/
theorem claim_C5 (n_fft l_frame l_hop : ℕ) (fft : List CC → List CC)
    (data : List CC) (win : List ℚ) :
    (reflectPad data (n_fft / 2)).length = data.length + 2 * (n_fft / 2) ∧
    (stft n_fft l_frame l_hop fft data win).length =
      ((data.length + 2 * (n_fft / 2)) - l_frame) / l_hop + 1 ∧
    (∀ i, i < ((data.length + 2 * (n_fft / 2)) - l_frame) / l_hop + 1 →
      (stft n_fft l_frame l_hop fft data win).getD i [] =
        (fft (List.zipWith CC.smul win
          (stridedFrame (reflectPad data (n_fft / 2)) l_frame l_hop i))).take
          (n_fft / 2 + 1)) := by
  refine ⟨reflectPad_length data (n_fft / 2), ?_, ?_⟩
  · simp [stft, reflectPad_length]
  · intro i hi
    unfold stft
    rw [getD_range_map]
    rw [reflectPad_length]
    exact hi

/-- Witness for C5: one concrete frame of a length-3 signal under the
identity transform. -/
theorem claim_C5_witness :
    (stft 4 4 2 id [(⟨1, 0⟩ : CC), ⟨2, 0⟩, ⟨3, 0⟩] [1, 1, 1, 1]).getD 0 [] =
      (id (List.zipWith CC.smul [1, 1, 1, 1]
        (stridedFrame (reflectPad [(⟨1, 0⟩ : CC), ⟨2, 0⟩, ⟨3, 0⟩] (4 / 2)) 4 2 0))).take
        (4 / 2 + 1) :=
  (claim_C5 4 4 2 id [⟨1, 0⟩, ⟨2, 0⟩, ⟨3, 0⟩] [1, 1, 1, 1]).2.2 0 (by decide)

theorem floaAccum_length (n_fft l_frame l_hop : ℕ) (fft ifft : List CC → List CC)
    (wave filter_fft : List CC) (win : List ℚ) :
    (floaAccum n_fft l_frame l_hop fft ifft wave filter_fft win).length =
      n_fft + l_hop * (wave.length / l_hop) := by
  simp [floaAccum]

theorem floaNormalize_length (acc : List CC) (artifact : List ℚ) (tiny : ℚ) :
    (floaNormalize acc artifact tiny).length = acc.length := by
  simp [floaNormalize]

/-- C3: under the repository's configuration `n_fft = 2 * l_hop` (the hop
is half the FFT size), `filter_overlap_add` returns a signal of exactly the
input's original length; the returned cell `t` is the overlap-add
accumulator cell `n_fft/2 + t` divided by the window-sum-square artifact
exactly when that artifact value exceeds the tiny floor, and untouched
otherwise; and at the dtype level the output is complex iff the input wave
is complex (the real part is taken for real input). -/
theorem claim_C3 (n_fft l_frame l_hop : ℕ) (fft ifft : List CC → List CC)
    (artifact : List ℚ) (tiny : ℚ) (wave filter_fft : List CC) (win : List ℚ)
    (hn : n_fft = 2 * l_hop) (hl : 0 < l_hop) :
    (filter_overlap_add n_fft l_frame l_hop fft ifft artifact tiny
        wave filter_fft win).length = wave.length ∧
    (∀ t, t < wave.length →
      (filter_overlap_add n_fft l_frame l_hop fft ifft artifact tiny
          wave filter_fft win).getD t 0 =
        (if n_fft / 2 + t < artifact.length ∧
            tiny < artifact.getD (n_fft / 2 + t) 0 then
          ((floaAccum n_fft l_frame l_hop fft ifft wave filter_fft win).getD
              (n_fft / 2 + t) 0).sdiv (artifact.getD (n_fft / 2 + t) 0)
        else
          (floaAccum n_fft l_frame l_hop fft ifft wave filter_fft win).getD
            (n_fft / 2 + t) 0)) ∧
    (∀ d : Dt, (floaDtype d).isComplex = d.isComplex) := by
  have hdiv : n_fft / 2 = l_hop := by omega
  have hmod := Nat.div_add_mod wave.length l_hop
  have hmodlt : wave.length % l_hop < l_hop := Nat.mod_lt _ hl
  have hlen_norm : (floaNormalize
      (floaAccum n_fft l_frame l_hop fft ifft wave filter_fft win)
      artifact tiny).length = n_fft + l_hop * (wave.length / l_hop) := by
    rw [floaNormalize_length, floaAccum_length]
  have hroom : wave.length + n_fft / 2 ≤ n_fft + l_hop * (wave.length / l_hop) := by
    rw [hdiv, hn]
    omega
  refine ⟨?_, ?_, ?_⟩
  · unfold filter_overlap_add
    rw [List.length_take, List.length_drop, hlen_norm]
    omega
  · intro t ht
    unfold filter_overlap_add
    have hidx : n_fft / 2 + t < (floaAccum n_fft l_frame l_hop fft ifft
        wave filter_fft win).length := by
      rw [floaAccum_length]
      omega
    have ht' : t < ((floaNormalize
        (floaAccum n_fft l_frame l_hop fft ifft wave filter_fft win)
        artifact tiny).drop (n_fft / 2)).length := by
      rw [List.length_drop, hlen_norm]
      omega
    rw [List.getD_eq_getElem _ _ (by rw [List.length_take]; omega),
      List.getElem_take, List.getElem_drop]
    unfold floaNormalize
    simp only [List.getElem_map, List.getElem_range]
  · intro d
    cases d <;> rfl

/-- Witness for C3 on a length-1 wave with hop 2 and FFT size 4: the output
has length 1 and its only cell is the accumulator cell at offset
`n_fft/2`, here unnormalized since the artifact list is empty. -/
theorem claim_C3_witness :
    (filter_overlap_add 4 4 2 id id [] 0 [(⟨1, 0⟩ : CC)] [⟨1, 0⟩] [1]).length = 1 ∧
    (filter_overlap_add 4 4 2 id id [] 0 [(⟨1, 0⟩ : CC)] [⟨1, 0⟩] [1]).getD 0 0 =
      (if 4 / 2 + 0 < ([] : List ℚ).length ∧
          (0 : ℚ) < ([] : List ℚ).getD (4 / 2 + 0) 0 then
        ((floaAccum 4 4 2 id id [(⟨1, 0⟩ : CC)] [⟨1, 0⟩] [1]).getD (4 / 2 + 0) 0).sdiv
          (([] : List ℚ).getD (4 / 2 + 0) 0)
      else (floaAccum 4 4 2 id id [(⟨1, 0⟩ : CC)] [⟨1, 0⟩] [1]).getD (4 / 2 + 0) 0) := by
  have h := claim_C3 4 4 2 id id [] 0 [⟨1, 0⟩] [⟨1, 0⟩] [1] rfl (by decide)
  exact ⟨h.1, h.2.1 0 (by decide)⟩

/-- C10: the overlap-add output buffer is created as complex64, so at the
dtype level `filter_overlap_add` always returns single precision: complex64
for any complex input (complex128 included) and float32 for any real input
(float64 included). -/
theorem claim_C10 :
    (∀ d : Dt, d.isComplex = true → floaDtype d = Dt.c64) ∧
    (∀ d : Dt, d.isComplex = false → floaDtype d = Dt.f32) := by
  constructor <;> intro d h <;> cases d <;> simp_all [floaDtype, Dt.isComplex, Dt.realPart]

/-- Witness for C10 at the two double-precision dtypes. -/
theorem claim_C10_witness :
    floaDtype Dt.f64 = Dt.f32 ∧ floaDtype Dt.c128 = Dt.c64 :=
  ⟨claim_C10.2 Dt.f64 rfl, claim_C10.1 Dt.c128 rfl⟩

theorem singlePrecField_ok (o : Option Dt) (h : o ≠ some Dt.other) :
    singlePrecField o = Except.ok (singleSpecMap o) := by
  match o with
  | none => rfl
  | some Dt.f64 => rfl
  | some Dt.f32 => rfl
  | some Dt.c128 => rfl
  | some Dt.c64 => rfl
  | some Dt.other => exact absurd rfl h

theorem except_bind_ok {ε α β : Type} (a : α) (f : α → Except ε β) :
    (Except.ok a >>= f) = f a := rfl

theorem as_single_prec_eq (s : SFTData) :
    s.as_single_prec =
      if ∀ o ∈ s.fields, o ≠ some Dt.other then
        Except.ok ⟨singleSpecMap s.Yenc, singleSpecMap s.bnkr_inv,
          singleSpecMap s.Wpv_1_1_m1, singleSpecMap s.Wpv_1_0_0,
          singleSpecMap s.Wnv_1_0_0, singleSpecMap s.Wnv_1_1_1,
          singleSpecMap s.Vv_1_0_0, singleSpecMap s.Vv_1_1_0,
          singleSpecMap s.T_real⟩
      else Except.error () := by
  unfold SFTData.as_single_prec SFTData.fields
  by_cases h1 : s.Yenc = some Dt.other
  · rw [h1, if_neg (fun hall => absurd rfl (hall (some Dt.other) (by simp)))]
    rfl
  rw [singlePrecField_ok _ h1, except_bind_ok]
  by_cases h2 : s.bnkr_inv = some Dt.other
  · rw [h2, if_neg (fun hall => absurd rfl (hall (some Dt.other) (by simp)))]
    rfl
  rw [singlePrecField_ok _ h2, except_bind_ok]
  by_cases h3 : s.Wpv_1_1_m1 = some Dt.other
  · rw [h3, if_neg (fun hall => absurd rfl (hall (some Dt.other) (by simp)))]
    rfl
  rw [singlePrecField_ok _ h3, except_bind_ok]
  by_cases h4 : s.Wpv_1_0_0 = some Dt.other
  · rw [h4, if_neg (fun hall => absurd rfl (hall (some Dt.other) (by simp)))]
    rfl
  rw [singlePrecField_ok _ h4, except_bind_ok]
  by_cases h5 : s.Wnv_1_0_0 = some Dt.other
  · rw [h5, if_neg (fun hall => absurd rfl (hall (some Dt.other) (by simp)))]
    rfl
  rw [singlePrecField_ok _ h5, except_bind_ok]
  by_cases h6 : s.Wnv_1_1_1 = some Dt.other
  · rw [h6, if_neg (fun hall => absurd rfl (hall (some Dt.other) (by simp)))]
    rfl
  rw [singlePrecField_ok _ h6, except_bind_ok]
  by_cases h7 : s.Vv_1_0_0 = some Dt.other
  · rw [h7, if_neg (fun hall => absurd rfl (hall (some Dt.other) (by simp)))]
    rfl
  rw [singlePrecField_ok _ h7, except_bind_ok]
  by_cases h8 : s.Vv_1_1_0 = some Dt.other
  · rw [h8, if_neg (fun hall => absurd rfl (hall (some Dt.other) (by simp)))]
    rfl
  rw [singlePrecField_ok _ h8, except_bind_ok]
  by_cases h9 : s.T_real = some Dt.other
  · rw [h9, if_neg (fun hall => absurd rfl (hall (some Dt.other) (by simp)))]
    rfl
  rw [singlePrecField_ok _ h9, except_bind_ok]
  rw [if_pos]
  · rfl
  · intro o ho
    simp only [List.mem_cons, List.not_mem_nil, or_false] at ho
    rcases ho with rfl | rfl | rfl | rfl | rfl | rfl | rfl | rfl | rfl <;> assumption

/-- C7: `as_single_prec` is a pure conversion: it succeeds exactly when
every populated field's dtype is one of float32/float64/complex64/complex128,
in which case each populated field is converted double→single (single
passes unchanged) and unpopulated fields remain unpopulated; an unsupported
dtype raises, and at the `__main__` level that failure aborts the run
before any worker starts or any file is written. -/
theorem claim_C7 :
    (∀ s : SFTData,
      (∃ t, s.as_single_prec = Except.ok t) ↔ ∀ o ∈ s.fields, o ≠ some Dt.other) ∧
    (∀ (s t : SFTData), s.as_single_prec = Except.ok t →
      t.fields = s.fields.map singleSpecMap) ∧
    (∀ env : MainEnv, env.sft_dtypes.as_single_prec = Except.error () →
      (mainRun env).2 = Except.error MainErr.unsupportedDtype ∧
      Effect.startWorkers ∉ (mainRun env).1 ∧
      Effect.writeMetadata ∉ (mainRun env).1) := by
  refine ⟨?_, ?_, ?_⟩
  · intro s
    rw [as_single_prec_eq]
    by_cases hcond : ∀ o ∈ s.fields, o ≠ some Dt.other
    · rw [if_pos hcond]
      exact ⟨fun _ => hcond, fun _ => ⟨_, rfl⟩⟩
    · rw [if_neg hcond]
      constructor
      · rintro ⟨t, ht⟩
        cases ht
      · intro h
        exact absurd h hcond
  · intro s t h
    rw [as_single_prec_eq] at h
    split_ifs at h with hcond
    cases h
    simp [SFTData.fields]
  · intro env h
    unfold mainRun
    rw [h]
    refine ⟨rfl, ?_, ?_⟩ <;>
      · by_cases ho : env.out_dir_exists <;> simp [ho]

/-- Witness for C7: a populated double-precision record converts to the
single-precision one, and its field list is the mapped field list. -/
theorem claim_C7_witness :
    SFTData.fields
        ⟨some Dt.f32, some Dt.c64, none, none, none, none, none, none, some Dt.f32⟩ =
      (SFTData.fields
        ⟨some Dt.f64, some Dt.c128, none, none, none, none, none, none,
          some Dt.f32⟩).map singleSpecMap :=
  claim_C7.2.1
    ⟨some Dt.f64, some Dt.c128, none, none, none, none, none, none, some Dt.f32⟩
    ⟨some Dt.f32, some Dt.c64, none, none, none, none, none, none, some Dt.f32⟩
    rfl

theorem find?_range_first (k : ℕ) :
    ∀ (p : ℕ → Bool) (n : ℕ), k < n → p k = true →
      (∀ j, j < k → p j = false) → (List.range n).find? p = some k := by
  induction k with
  | zero =>
    intro p n hn hp _
    obtain ⟨m, rfl⟩ : ∃ m, n = m + 1 := ⟨n - 1, by omega⟩
    rw [List.range_succ_eq_map, List.find?_cons_of_pos _ hp]
  | succ k ih =>
    intro p n hn hp hmin
    obtain ⟨m, rfl⟩ : ∃ m, n = m + 1 := ⟨n - 1, by omega⟩
    rw [List.range_succ_eq_map,
      List.find?_cons_of_neg _ (by simp [hmin 0 (by omega)]),
      List.find?_map]
    have hrec : (List.range m).find? (p ∘ Nat.succ) = some k :=
      ih (fun j => p (j + 1)) m (by omega) hp (fun j hj => hmin (j + 1) (by omega))
    rw [hrec]
    rfl

theorem idx_exist_scan_all (featExists : ℕ → Bool) (n : ℕ)
    (h : ∀ i, i < n → featExists i = true) :
    idx_exist_scan featExists n = -2 := by
  unfold idx_exist_scan
  rw [List.find?_eq_none.mpr]
  intro i hi
  simp only [List.mem_range] at hi
  simp [h i hi]

theorem idx_exist_scan_first (featExists : ℕ → Bool) (n k : ℕ)
    (hk : k < n) (hmiss : featExists k = false)
    (hbelow : ∀ j, j < k → featExists j = true) :
    idx_exist_scan featExists n = (k : ℤ) - 1 := by
  unfold idx_exist_scan
  rw [find?_range_first k _ n hk (by simp [hmiss]) (fun j hj => by simp [hbelow j hj])]

/-- C4: with no explicit resume index (`--from` is `-1`), on a normal
startup (constants convert, reference metadata present when configured):
if every planned feature file already exists the run writes the metadata
file and exits cleanly without starting any worker; otherwise `idx_start`
is exactly the index of the first missing feature file, every smaller
index already has a file (by the hypothesis of firstness), and
`process` iterates precisely over `range(idx_start, n_feature)`. -/
theorem claim_C4 (env : MainEnv)
    (hsft : ∃ t, env.sft_dtypes.as_single_prec = Except.ok t)
    (href : ¬(env.s_path_metadata = true ∧ env.ref_meta_exists = false))
    (hfrom : env.from_idx = -1) :
    ((∀ i, i < mainNFeature env → env.featExists i = true) →
      (mainRun env).2 = Except.ok MainOutcome.exitNoWork ∧
      Effect.writeMetadata ∈ (mainRun env).1 ∧
      Effect.startWorkers ∉ (mainRun env).1) ∧
    (∀ k, k < mainNFeature env → env.featExists k = false →
      (∀ j, j < k → env.featExists j = true) →
      (mainRun env).2 =
        Except.ok (MainOutcome.proceed false (k : ℤ) (mainNFeature env)) ∧
      (∀ j : ℤ, j ∈ processIndices (k : ℤ) (mainNFeature env) ↔
        (k : ℤ) ≤ j ∧ j < (mainNFeature env : ℤ))) := by
  obtain ⟨t, ht⟩ := hsft
  have href' : ¬(env.s_path_metadata ∧ ¬env.ref_meta_exists) := by
    intro hc
    exact href ⟨hc.1, by simpa using hc.2⟩
  have hnotlt : ¬((mainNFeature env : ℤ) < env.from_idx) := by
    rw [hfrom]
    omega
  constructor
  · intro hall
    have hscan := idx_exist_scan_all env.featExists (mainNFeature env) hall
    unfold mainRun
    rw [ht]
    simp only [if_neg href', if_neg hnotlt, if_pos hfrom, hscan, if_pos rfl]
    refine ⟨rfl, ?_, ?_⟩ <;>
      by_cases ho : env.out_dir_exists <;> simp [ho]
  · intro k hk hmiss hbelow
    have hscan := idx_exist_scan_first env.featExists (mainNFeature env) k hk hmiss hbelow
    unfold mainRun
    rw [ht]
    have hne : ¬((k : ℤ) - 1 = -2) := by omega
    simp only [if_neg href', if_neg hnotlt, if_pos hfrom, hscan, if_neg hne]
    constructor
    · have hk1 : (k : ℤ) - 1 + 1 = (k : ℤ) := by omega
      rw [hk1]
    · intro j
      simp only [processIndices, List.mem_map, List.mem_range]
      constructor
      · rintro ⟨u, hu, rfl⟩
        omega
      · rintro ⟨h1, h2⟩
        exact ⟨(j - (k : ℤ)).toNat, by omega, by omega⟩

/-- Witness for C4: a run whose three planned features all exist exits
after the metadata write, and a run whose first feature is missing resumes
at index 0. -/
theorem claim_C4_witness :
    (mainRun ⟨true, ⟨none, none, none, none, none, none, none, none, none⟩,
        false, false, false, [], 0, 1, 1, 0, 1, [0], -1, fun _ => true⟩).2 =
      Except.ok MainOutcome.exitNoWork ∧
    (mainRun ⟨true, ⟨none, none, none, none, none, none, none, none, none⟩,
        false, false, false, [], 0, 1, 1, 0, 1, [0], -1, fun _ => false⟩).2 =
      Except.ok (MainOutcome.proceed false 0 1) := by
  constructor
  · exact ((claim_C4
      ⟨true, ⟨none, none, none, none, none, none, none, none, none⟩,
        false, false, false, [], 0, 1, 1, 0, 1, [0], -1, fun _ => true⟩
      ⟨⟨none, none, none, none, none, none, none, none, none⟩, rfl⟩
      (by simp) rfl).1 (fun i _ => rfl)).1
  · exact ((claim_C4
      ⟨true, ⟨none, none, none, none, none, none, none, none, none⟩,
        false, false, false, [], 0, 1, 1, 0, 1, [0], -1, fun _ => false⟩
      ⟨⟨none, none, none, none, none, none, none, none, none⟩, rfl⟩
      (by simp) rfl).2 0 (by decide) rfl
      (fun j hj => absurd hj (by omega))).1

/-- C6 counterexample: with the output directory initially absent, a
configured reference metadata path that does not exist makes the run raise
`refMetaMissing` — but only after `os.makedirs(path_result, exist_ok=True)`
(line 474) has already created the output directory, so the claim that no
directory under the output path is created before the abort fails. -/
theorem claim_C6_counterexample :
    (mainRun ⟨false, ⟨none, none, none, none, none, none, none, none, none⟩,
        true, false, false, [], 0, 1, 1, 0, 1, [0], -1, fun _ => false⟩).2 =
      Except.error MainErr.refMetaMissing ∧
    (mainRun ⟨false, ⟨none, none, none, none, none, none, none, none, none⟩,
        true, false, false, [], 0, 1, 1, 0, 1, [0], -1, fun _ => false⟩).1 =
      [Effect.mkdirOutput] := by
  constructor <;> rfl

/-- C6 amended: a missing configured reference metadata file, or a resume
index exceeding the planned feature count, raises the corresponding error
before any worker starts and before any feature or metadata file is
written; the only output-storage effect that may precede the abort is the
unconditional creation of the output directory itself (when it did not
exist), and when the output directory already exists the abort touches
nothing. -/
theorem claim_C6 (env : MainEnv)
    (hsft : ∃ t, env.sft_dtypes.as_single_prec = Except.ok t) :
    (env.s_path_metadata = true → env.ref_meta_exists = false →
      (mainRun env).2 = Except.error MainErr.refMetaMissing ∧
      Effect.writeMetadata ∉ (mainRun env).1 ∧
      Effect.startWorkers ∉ (mainRun env).1 ∧
      (env.out_dir_exists = true → (mainRun env).1 = [])) ∧
    (¬(env.s_path_metadata ∧ ¬env.ref_meta_exists) →
      (mainNFeature env : ℤ) < env.from_idx →
      (mainRun env).2 = Except.error MainErr.fromIdxTooLarge ∧
      Effect.writeMetadata ∉ (mainRun env).1 ∧
      Effect.startWorkers ∉ (mainRun env).1 ∧
      (env.out_dir_exists = true → (mainRun env).1 = [])) := by
  obtain ⟨t, ht⟩ := hsft
  constructor
  · intro h1 h2
    have hcnd : env.s_path_metadata = true ∧ ¬env.ref_meta_exists = true :=
      ⟨h1, by simp [h2]⟩
    unfold mainRun
    rw [ht]
    simp only [if_pos hcnd]
    refine ⟨trivial, ?_, ?_, ?_⟩ <;>
      by_cases ho : env.out_dir_exists <;> simp [ho]
  · intro hcond hlt
    unfold mainRun
    rw [ht]
    simp only [if_neg hcond, if_pos hlt]
    refine ⟨trivial, ?_, ?_, ?_⟩ <;>
      by_cases ho : env.out_dir_exists <;> simp [ho]

/-- Witness for C6: both error paths at concrete environments, with the
output directory already present so that nothing at all is touched. -/
theorem claim_C6_witness :
    (mainRun ⟨true, ⟨none, none, none, none, none, none, none, none, none⟩,
        true, false, false, [], 0, 1, 1, 0, 1, [0], -1, fun _ => false⟩).2 =
      Except.error MainErr.refMetaMissing ∧
    (mainRun ⟨true, ⟨none, none, none, none, none, none, none, none, none⟩,
        false, false, false, [], 0, 1, 1, 0, 1, [0], 5, fun _ => false⟩).2 =
      Except.error MainErr.fromIdxTooLarge := by
  constructor
  · exact (((claim_C6
      ⟨true, ⟨none, none, none, none, none, none, none, none, none⟩,
        true, false, false, [], 0, 1, 1, 0, 1, [0], -1, fun _ => false⟩
      ⟨⟨none, none, none, none, none, none, none, none, none⟩, rfl⟩).1
      rfl rfl).1)
  · exact (((claim_C6
      ⟨true, ⟨none, none, none, none, none, none, none, none, none⟩,
        false, false, false, [], 0, 1, 1, 0, 1, [0], 5, fun _ => false⟩
      ⟨⟨none, none, none, none, none, none, none, none, none⟩, rfl⟩).2
      (by simp) (by norm_num [mainNFeature])).1)

theorem freshFeatureList_length (ns nl room : ℕ) :
    (freshFeatureList ns nl room).length = ns * nl := by
  unfold freshFeatureList
  rw [List.length_flatMap]
  have hmap : List.map (List.length ∘ fun s => List.map
      (fun l => (⟨s, room, l⟩ : FeatureTuple)) (List.range nl)) (List.range ns) =
      List.map (fun _ => nl) (List.range ns) := by
    apply List.map_congr_left
    intro a _
    simp [Function.comp]
  rw [hmap, List.map_const', List.sum_replicate, smul_eq_mul, List.length_range]

theorem mem_freshFeatureList (ns nl room : ℕ) (tup : FeatureTuple) :
    tup ∈ freshFeatureList ns nl room ↔
      tup.i_speech < ns ∧ tup.room = room ∧ tup.i_loc < nl := by
  unfold freshFeatureList
  simp only [List.mem_flatMap, List.mem_map, List.mem_range]
  constructor
  · rintro ⟨s, hs, l, hl, rfl⟩
    exact ⟨hs, rfl, hl⟩
  · rintro ⟨h1, h2, h3⟩
    exact ⟨tup.i_speech, h1, tup.i_loc, h3, by cases tup; simp_all⟩

/-- C9 counterexample: a reference filename list naming speech index 5,
against a reference speech list of length 1 (so `n_speech = 1`), is
reconstructed by `list_fname_to_feature` without any speech-index check,
so the claimed bound `speech_index < n_speech` fails on the rebuilt
tuple. -/
theorem claim_C9_counterexample :
    ¬ (∀ tup ∈ list_fname_to_feature 0 1 [⟨0, 5, 0, 0⟩], tup.i_speech < 1) := by
  decide

/-- C9 amended: every tuple of a freshly sampled feature list satisfies
both bounds (the sampling indices come from `np.random.choice` below the
product length); every reconstructed tuple satisfies the location bound
(`list_fname_to_feature` filters on it explicitly), and it satisfies the
speech bound whenever the reference filename list was produced by
`list_feature_to_fname` from tuples with in-range speech indices — but not
for an arbitrary reference metadata file, which is accepted unchecked. -/
theorem claim_C9 :
    (∀ (n_speech n_loc room : ℕ) (idx_choice : List ℕ),
      (∀ i ∈ idx_choice, i < n_speech * n_loc) →
      ∀ tup ∈ sampleFeatures (freshFeatureList n_speech n_loc room) idx_choice,
        tup.i_speech < n_speech ∧ tup.i_loc < n_loc) ∧
    (∀ (room n_loc : ℕ) (fnames : List FName),
      ∀ tup ∈ list_fname_to_feature room n_loc fnames, tup.i_loc < n_loc) ∧
    (∀ (room n_loc n_speech : ℕ) (feats : List FeatureTuple),
      (∀ f ∈ feats, f.i_speech < n_speech) →
      ∀ tup ∈ list_fname_to_feature room n_loc (list_feature_to_fname feats),
        tup.i_speech < n_speech ∧ tup.i_loc < n_loc) := by
  refine ⟨?_, ?_, ?_⟩
  · intro ns nl room choice hch tup htup
    unfold sampleFeatures at htup
    rw [List.mem_map] at htup
    obtain ⟨i, hi, rfl⟩ := htup
    have hilen : i < (freshFeatureList ns nl room).length := by
      rw [freshFeatureList_length]
      exact hch i hi
    have hmem : (freshFeatureList ns nl room).getD i ⟨0, 0, 0⟩ ∈
        freshFeatureList ns nl room := by
      rw [List.getD_eq_getElem _ _ hilen]
      exact List.getElem_mem _
    have hb := (mem_freshFeatureList ns nl room _).1 hmem
    exact ⟨hb.1, hb.2.2⟩
  · intro room nl fnames tup htup
    unfold list_fname_to_feature at htup
    rw [List.mem_map] at htup
    obtain ⟨f, hf, rfl⟩ := htup
    simpa using (List.mem_filter.mp hf).2
  · intro room nl ns feats hfeats tup htup
    unfold list_fname_to_feature at htup
    rw [List.mem_map] at htup
    obtain ⟨f, hf, rfl⟩ := htup
    have hloc := (List.mem_filter.mp hf).2
    have hmemf := (List.mem_filter.mp hf).1
    unfold list_feature_to_fname at hmemf
    rw [List.mem_map] at hmemf
    obtain ⟨p, hp, rfl⟩ := hmemf
    have hsnd : p.2 ∈ feats := by
      have hm : p.2 ∈ feats.enum.map Prod.snd := List.mem_map_of_mem _ hp
      rwa [List.enum_map_snd] at hm
    exact ⟨hfeats p.2 hsnd, by simpa using hloc⟩

/-- Witness for C9: a concrete sampled tuple of 2 speech files × 3
locations satisfies both index bounds. -/
theorem claim_C9_witness :
    (⟨1, 7, 2⟩ : FeatureTuple).i_speech < 2 ∧
    (⟨1, 7, 2⟩ : FeatureTuple).i_loc < 3 :=
  claim_C9.1 2 3 7 [0, 5] (by decide) ⟨1, 7, 2⟩ (by decide)
